import Mathlib

/-!
# Verification of the fcpxml-chapter-export tool

This file gives a shallow embedding of the two observed variants of the
chapter-marker export program (`src/index.js`, strict rational parsing with
path-based clip lookup, and `src/unnamed/part_000`, permissive rational
parsing with a generic recursive tree walk), and settles the frozen claims
about its specification.

JavaScript numbers are modelled as rationals extended with `NaN` and the two
infinities (`JSNum`).  All inputs flowing through this program are integers
produced by `parseInt` and the results of finitely many exact arithmetic
operations on them, so the binary64 rounding of JavaScript arithmetic is not
observable on the quantities the program manipulates at realistic scales;
the extended-rational model keeps division by zero, `NaN` propagation and
comparison semantics exactly as in JavaScript (with the one idealisation
that there is no negative zero).
-/

/-- JavaScript number values: `NaN`, the two infinities, or a finite value
(modelled as an exact rational). -/
inductive JSNum where
  | nan : JSNum
  | posInf : JSNum
  | negInf : JSNum
  | rat (q : ℚ) : JSNum
deriving DecidableEq, Repr

namespace JSNum

/-- JavaScript addition on numbers. -/
def add : JSNum → JSNum → JSNum
  | nan, _ => nan
  | _, nan => nan
  | posInf, negInf => nan
  | negInf, posInf => nan
  | posInf, _ => posInf
  | negInf, _ => negInf
  | rat _, posInf => posInf
  | rat _, negInf => negInf
  | rat a, rat b => rat (a + b)

/-- JavaScript subtraction on numbers. -/
def sub : JSNum → JSNum → JSNum
  | nan, _ => nan
  | _, nan => nan
  | posInf, posInf => nan
  | posInf, _ => posInf
  | negInf, negInf => nan
  | negInf, _ => negInf
  | rat _, posInf => negInf
  | rat _, negInf => posInf
  | rat a, rat b => rat (a - b)

/-- JavaScript multiplication on numbers (only used for `minutes * 60`). -/
def mul : JSNum → JSNum → JSNum
  | nan, _ => nan
  | _, nan => nan
  | posInf, posInf => posInf
  | posInf, negInf => negInf
  | negInf, posInf => negInf
  | negInf, negInf => posInf
  | posInf, rat b => if b = 0 then nan else if 0 < b then posInf else negInf
  | negInf, rat b => if b = 0 then nan else if 0 < b then negInf else posInf
  | rat a, posInf => if a = 0 then nan else if 0 < a then posInf else negInf
  | rat a, negInf => if a = 0 then nan else if 0 < a then negInf else posInf
  | rat a, rat b => rat (a * b)

/-- JavaScript division on numbers.  A nonzero finite value divided by zero
gives a signed infinity (there is no negative zero in this model, so the
zero divisor counts as positive zero, as produced by `parseInt("0")`). -/
def div : JSNum → JSNum → JSNum
  | nan, _ => nan
  | _, nan => nan
  | posInf, posInf => nan
  | posInf, negInf => nan
  | negInf, posInf => nan
  | negInf, negInf => nan
  | posInf, rat b => if b < 0 then negInf else posInf
  | negInf, rat b => if b < 0 then posInf else negInf
  | rat _, posInf => rat 0
  | rat _, negInf => rat 0
  | rat a, rat b =>
    if b = 0 then
      if a = 0 then nan else if 0 < a then posInf else negInf
    else rat (a / b)

/-- Truncation of a rational toward zero, as used by the JavaScript `%`
operator. -/
def ratTrunc (q : ℚ) : ℤ := if 0 ≤ q then ⌊q⌋ else ⌈q⌉

/-- The JavaScript remainder operator `%`: the sign of the result follows
the dividend; `NaN` if either operand is `NaN`, the dividend is infinite or
the divisor is zero; an infinite divisor returns the (finite) dividend. -/
def rem : JSNum → JSNum → JSNum
  | nan, _ => nan
  | _, nan => nan
  | posInf, _ => nan
  | negInf, _ => nan
  | rat a, posInf => rat a
  | rat a, negInf => rat a
  | rat a, rat b =>
    if b = 0 then nan else rat (a - b * ratTrunc (a / b))

/-- JavaScript `Math.floor`. -/
def floorNum : JSNum → JSNum
  | nan => nan
  | posInf => posInf
  | negInf => negInf
  | rat q => rat ((⌊q⌋ : ℤ) : ℚ)

/-- The JavaScript strict-less-than comparison: `false` whenever either
operand is `NaN`. -/
def lt : JSNum → JSNum → Bool
  | nan, _ => false
  | _, nan => false
  | posInf, _ => false
  | negInf, negInf => false
  | negInf, _ => true
  | rat _, posInf => true
  | rat _, negInf => false
  | rat a, rat b => decide (a < b)

end JSNum

/-! ## Decimal printing of numbers

The only numbers this program ever converts to strings are integers (the
floored hour/minute/second components), `NaN` and the infinities, so the
printer needs the exact JavaScript output on those: decimal digits with a
leading `-` for negative integers, `"NaN"` and `"±Infinity"`.  (JavaScript
switches to exponent notation above `1e21`; chapter offsets never reach
that, and the model prints plain decimal throughout.) -/

/-- Big-endian decimal digit characters of a natural number; the first
argument is fuel, always called with fuel exceeding the number. -/
def natToDigitsAux : Nat → Nat → List Char
  | 0, _ => []
  | fuel + 1, n =>
    if n < 10 then [Nat.digitChar n]
    else natToDigitsAux fuel (n / 10) ++ [Nat.digitChar (n % 10)]

/-- Decimal string of a natural number. -/
def natToString (n : Nat) : String := String.mk (natToDigitsAux (n + 1) n)

/-- Decimal string of an integer, with a leading minus sign when negative
(as printed by JavaScript; negative zero does not arise in this model). -/
def intToString (i : ℤ) : String :=
  if i < 0 then "-" ++ natToString i.natAbs else natToString i.toNat

/-- JavaScript `Number.prototype.toString` for the values this program
prints.  A finite non-integer never reaches a print site in this program;
for totality it is printed as its reduced fraction. -/
def jsNumToString : JSNum → String
  | JSNum.nan => "NaN"
  | JSNum.posInf => "Infinity"
  | JSNum.negInf => "-Infinity"
  | JSNum.rat q =>
    if q.den = 1 then intToString q.num
    else intToString q.num ++ "/" ++ natToString q.den

/-- JavaScript `String.prototype.padStart(2, '0')`. -/
def padStart2 (s : String) : String :=
  if 2 ≤ s.length then s
  else String.mk (List.replicate (2 - s.length) '0' ++ s.data)

/-! ## `parseInt` and string utilities -/

/-- The whitespace characters skipped by `parseInt` (the ASCII ones;
Unicode space separators cannot occur in rational-time strings). -/
def isJsWhitespace (c : Char) : Bool :=
  c = ' ' ∨ c = '\t' ∨ c = '\n' ∨ c = '\r' ∨ c = '\x0B' ∨ c = '\x0C' 

/-- Leading run of decimal digits interpreted as a natural number;
`none` when there is no leading digit (`parseInt` yields `NaN` then). -/
def parseDecDigits (cs : List Char) : Option Nat :=
  let ds := cs.takeWhile Char.isDigit
  if ds.isEmpty then none
  else some (ds.foldl (fun a c => 10 * a + (c.toNat - 48)) 0)

/-- Leading run of hexadecimal digits, for `parseInt`'s `0x` prefix. -/
def parseHexDigits (cs : List Char) : Option Nat :=
  let ds := cs.takeWhile (fun c => c.isDigit ∨ ('a' ≤ c ∧ c ≤ 'f') ∨ ('A' ≤ c ∧ c ≤ 'F'))
  if ds.isEmpty then none
  else some (ds.foldl (fun a c =>
    16 * a + (if c.isDigit then c.toNat - 48
              else if 'a' ≤ c then c.toNat - 87 else c.toNat - 55)) 0)

/-- Magnitude part of `parseInt` after the optional sign: a `0x`/`0X`
prefix selects hexadecimal, otherwise leading decimal digits are taken. -/
def parseIntNoSign (cs : List Char) : Option Nat :=
  if cs.head? = some '0' ∧ (cs.tail.head? = some 'x' ∨ cs.tail.head? = some 'X')
  then parseHexDigits cs.tail.tail
  else parseDecDigits cs

/-- JavaScript `parseInt` (radix unspecified) on a character list: skip
leading whitespace, read an optional sign, then the longest digit prefix;
`none` models the `NaN` result. -/
def jsParseInt (cs : List Char) : Option ℤ :=
  let r := cs.dropWhile isJsWhitespace
  if r.head? = some '-' then (parseIntNoSign r.tail).map (fun n => -(n : ℤ))
  else if r.head? = some '+' then (parseIntNoSign r.tail).map (fun n => (n : ℤ))
  else (parseIntNoSign r).map (fun n => (n : ℤ))

/-- `parseInt` as a JavaScript number: `NaN` when no digits were found. -/
def parseIntNum (cs : List Char) : JSNum :=
  match jsParseInt cs with
  | none => JSNum.nan
  | some i => JSNum.rat (i : ℚ)

/-- `String.prototype.split` on a one-character separator: JavaScript
semantics, so the result is never empty and splitting the empty string
yields `[""]`. -/
def splitOnChar (sep : Char) : List Char → List (List Char)
  | [] => [[]]
  | c :: rest =>
    if c = sep then [] :: splitOnChar sep rest
    else
      match splitOnChar sep rest with
      | [] => [[c]]
      | p :: ps => (c :: p) :: ps

/-- `replace(/s$/, '')`: remove one trailing `'s'` when present. -/
def stripTrailingS (cs : List Char) : List Char :=
  match cs.getLast? with
  | some c => if c = 's' then cs.dropLast else cs
  | none => cs

/-! ## The document tree -/

/-- Values of the parsed document tree (the output of the XML parser, with
attributes kept as `@_`-prefixed fields), together with `undefined` for
absent properties. -/
inductive JSValue where
  | undef : JSValue
  | null : JSValue
  | str (s : String) : JSValue
  | num (n : JSNum) : JSValue
  | arr (elems : List JSValue) : JSValue
  | obj (fields : List (String × JSValue)) : JSValue
deriving Inhabited

/-- Whether `typeof v === 'object'` (arrays and `null` included). -/
def JSValue.isObjectType : JSValue → Bool
  | JSValue.obj _ => true
  | JSValue.arr _ => true
  | JSValue.null => true
  | _ => false

/-- Whether the value is a string. -/
def JSValue.isString : JSValue → Bool
  | JSValue.str _ => true
  | _ => false

/-- The coercion at the head of `convertRationalNumber`: any non-string
(and the falsy empty string) is replaced by the empty string. -/
def coerceToString (v : JSValue) : String :=
  match v with
  | JSValue.str s => s
  | _ => ""

/-- Display conversion used by the template literal for a chapter name
(`undefined` and `null` print their keyword; arrays join with commas with
nullish elements blank; plain objects print the standard tag). -/
def jsDisplayString : JSValue → String
  | JSValue.undef => "undefined"
  | JSValue.null => "null"
  | JSValue.str s => s
  | JSValue.num n => jsNumToString n
  | JSValue.arr _ => ""
  | JSValue.obj _ => "[object Object]"

/-! ## `convertRationalNumber`, both variants -/

/-- `convertRationalNumber` of `src/index.js` (the strict variant): strip a
trailing `s`, split on `/`, and return the quotient of the two parsed parts;
any part count other than two returns `0`. -/
def convertRationalNumber (v : JSValue) : JSNum :=
  match splitOnChar '/' (stripTrailingS (coerceToString v).data) with
  | [a, b] => JSNum.div (parseIntNum a) (parseIntNum b)
  | _ => JSNum.rat 0

/-- `convertRationalNumber` of `src/unnamed/part_000` (the permissive
variant): one part is parsed directly as seconds; otherwise the first two
parts are divided (parts beyond the second are ignored, not rejected).  The
empty part list cannot arise from a split; the corresponding fall-through in
the source indexes past the array and divides `NaN` by `NaN`. -/
def convertRationalNumberPermissive (v : JSValue) : JSNum :=
  match splitOnChar '/' (stripTrailingS (coerceToString v).data) with
  | [a] => parseIntNum a
  | a :: b :: _ => JSNum.div (parseIntNum a) (parseIntNum b)
  | [] => JSNum.nan

/-! ## `calculateChapterTime` -/

/-- A collected chapter-marker record: the marker's display name and local
start, and the enclosing clip's placement offset and trim-in start. -/
structure Chapter where
  name : JSValue
  start : JSValue
  assetOffset : JSValue
  assetStart : JSValue
deriving Inhabited

/-- `calculateChapterTime`, parameterised by the rational-conversion
function (the two source variants differ only there): reject markers before
the clip's trim-in point, otherwise floor the absolute offset and format it
as colon-separated zero-padded hours, minutes and seconds. -/
def calculateChapterTimeWith (conv : JSValue → JSNum) (chapter : Chapter) :
    Option String :=
  let chapterStart := conv chapter.start
  let assetStart := conv chapter.assetStart
  let assetOffset := conv chapter.assetOffset
  if JSNum.lt chapterStart assetStart then none
  else
    let chapterOffset := JSNum.floorNum
      (JSNum.add (JSNum.sub chapterStart assetStart) assetOffset)
    let seconds := JSNum.rem chapterOffset (JSNum.rat 60)
    let minutes := JSNum.rem
      (JSNum.div (JSNum.sub chapterOffset seconds) (JSNum.rat 60)) (JSNum.rat 60)
    let hours := JSNum.div
      (JSNum.sub (JSNum.sub chapterOffset seconds) (JSNum.mul minutes (JSNum.rat 60)))
      (JSNum.rat 3600)
    some (padStart2 (jsNumToString hours) ++ ":" ++
          padStart2 (jsNumToString minutes) ++ ":" ++
          padStart2 (jsNumToString seconds))

/-- `calculateChapterTime` of `src/index.js`. -/
def calculateChapterTime : Chapter → Option String :=
  calculateChapterTimeWith convertRationalNumber

/-- `calculateChapterTime` of `src/unnamed/part_000`. -/
def calculateChapterTimeP : Chapter → Option String :=
  calculateChapterTimeWith convertRationalNumberPermissive

/-! ## The marker collector of `src/unnamed/part_000`

A generic depth-first walk.  `typeof obj === 'object'` admits plain
objects, arrays and `null`; property reads on non-objects yield
`undefined` (reading an attribute off a `null` marker value would throw in
JavaScript; it cannot arise from the XML parser and is totalised to
`undefined` here). -/

/-- Property access `v[key]`, `undefined` when absent or not an object. -/
def attrGet (v : JSValue) (key : String) : JSValue :=
  match v with
  | JSValue.obj fields =>
    match fields.find? (fun kv => kv.1 == key) with
    | some kv => kv.2
    | none => JSValue.undef
  | _ => JSValue.undef

/-- Build one `Chapter` from a marker element and its enclosing clip node,
as pushed by `findChapterMarkers`. -/
def mkChapter (marker clipNode : JSValue) : Chapter :=
  { name := attrGet marker "@_value"
    start := attrGet marker "@_start"
    assetOffset := attrGet clipNode "@_offset"
    assetStart := attrGet clipNode "@_start" }

/-- The records pushed at one object node: one per element of an array
valued `chapter-marker` child, one for any other present value. -/
def markersAt (fields : List (String × JSValue)) : List Chapter :=
  match fields.find? (fun kv => kv.1 == "chapter-marker") with
  | none => []
  | some kv =>
    match kv.2 with
    | JSValue.arr ms => ms.map (fun m => mkChapter m (JSValue.obj fields))
    | v => [mkChapter v (JSValue.obj fields)]

mutual

/-- `findChapterMarkers` of `src/unnamed/part_000`: returns immediately on
non-objects and `null`, collects the records of a `chapter-marker` child at
the current node, then recurses into every object-typed child value (the
`chapter-marker` child included). -/
def findChapterMarkers : JSValue → List Chapter
  | JSValue.obj fields => markersAt fields ++ findInFields fields
  | JSValue.arr elems => findInElems elems
  | _ => []

/-- The `for (let key in obj)` loop over an object's fields. -/
def findInFields : List (String × JSValue) → List Chapter
  | [] => []
  | kv :: rest =>
    (if kv.2.isObjectType then findChapterMarkers kv.2 else []) ++ findInFields rest

/-- The `for (let key in obj)` loop over an array's elements. -/
def findInElems : List JSValue → List Chapter
  | [] => []
  | v :: rest =>
    (if v.isObjectType then findChapterMarkers v else []) ++ findInElems rest

end

/-! ## The output pipeline

`Array.prototype.sort` with no comparator compares strings by UTF-16 code
units and produces a stable sorted permutation; any stable sorted
permutation is a faithful model, and `List.insertionSort` is used here. -/

/-- UTF-16 code units of a string (surrogate pairs for supplementary
characters), the sort key used by the default JavaScript sort. -/
def utf16Units (s : String) : List Nat :=
  s.data.foldr
    (fun c acc =>
      let n := c.toNat
      if n < 65536 then n :: acc
      else (55296 + (n - 65536) / 1024) :: (56320 + (n - 65536) % 1024) :: acc)
    []

/-- Lexicographic order on code-unit sequences. -/
def unitsLe : List Nat → List Nat → Bool
  | [], _ => true
  | _ :: _, [] => false
  | a :: as, b :: bs => if a < b then true else if b < a then false else unitsLe as bs

/-- The order in which the default JavaScript sort arranges the output
lines: by UTF-16 code units, lexicographically. -/
def lineLe (a b : String) : Prop := unitsLe (utf16Units a) (utf16Units b) = true

instance : DecidableRel lineLe :=
  fun a b => inferInstanceAs (Decidable (unitsLe (utf16Units a) (utf16Units b) = true))

/-- One iteration of the `chapters.forEach` emission loop: skip records
whose computed time is falsy (`null` or the empty string), otherwise build
the line `` `${calculateChapterTime(chapter)} ${chapter.name}` ``. -/
def emitLineWith (calcFn : Chapter → Option String) (c : Chapter) : Option String :=
  match calcFn c with
  | none => none
  | some t => if t = "" then none else some (t ++ " " ++ jsDisplayString c.name)

/-- The emission loop followed by `outputTimes.sort()`: the sequence of
lines the program prints, in print order. -/
def outputTimesWith (calcFn : Chapter → Option String) (chapters : List Chapter) :
    List String :=
  List.insertionSort lineLe (chapters.filterMap (emitLineWith calcFn))

/-- Output lines of the `src/index.js` variant for a list of collected
chapter records. -/
def outputTimes : List Chapter → List String :=
  outputTimesWith calculateChapterTime

/-- Output lines of the `src/unnamed/part_000` variant for a list of
collected chapter records. -/
def outputTimesP : List Chapter → List String :=
  outputTimesWith calculateChapterTimeP

/-! ## Specification-side definitions

These follow the spec's and claims' own words, to be compared with the
code-side functions above. -/

/-- Decimal value of a digit string (the claims' "parse as integer" on a
pure digit string). -/
def digitsVal (ds : List Char) : ℕ :=
  ds.foldl (fun a c => 10 * a + (c.toNat - 48)) 0

/-- A non-empty string of decimal digits. -/
def IsDigitString (ds : List Char) : Prop :=
  ds ≠ [] ∧ ∀ c ∈ ds, c.isDigit = true

/-- The claim's decomposition `seconds = offsetSeconds mod 60`, where `mod`
is the remainder the code's `%` computes (sign following the dividend). -/
def claimSeconds (o : ℤ) : ℤ := Int.tmod o 60

/-- The claim's `minutes = ((offsetSeconds − seconds) / 60) mod 60`; the
division is exact. -/
def claimMinutes (o : ℤ) : ℤ := Int.tmod ((o - claimSeconds o) / 60) 60

/-- The claim's `hours = (offsetSeconds − seconds − minutes×60) / 3600`;
the division is exact. -/
def claimHours (o : ℤ) : ℤ :=
  (o - claimSeconds o - claimMinutes o * 60) / 3600

/-- The claim's output format: the three components zero-padded to at
least two digits and joined by colons. -/
def claimTimeString (o : ℤ) : String :=
  padStart2 (intToString (claimHours o)) ++ ":" ++
  padStart2 (intToString (claimMinutes o)) ++ ":" ++
  padStart2 (intToString (claimSeconds o))

/-- Re-parse an emitted time string as three colon-separated integers
(claim C9's round trip). -/
def parseHMS (s : String) : Option (ℤ × ℤ × ℤ) :=
  match splitOnChar ':' s.data with
  | [h, m, sec] =>
    match jsParseInt h, jsParseInt m, jsParseInt sec with
    | some a, some b, some c => some (a, b, c)
    | _, _, _ => none
  | _ => none

/-- Being `NaN`, `+Infinity` or a non-negative finite value. -/
def JSNum.nonNegOrNaN : JSNum → Prop
  | JSNum.nan => True
  | JSNum.posInf => True
  | JSNum.negInf => False
  | JSNum.rat q => 0 ≤ q

/-- A marker element with a name and a start attribute. -/
def markerNode (name start : String) : JSValue :=
  JSValue.obj [("@_value", JSValue.str name), ("@_start", JSValue.str start)]

/-- A clip node with offset and start attributes and a given
`chapter-marker` child value. -/
def clipNode (offset start : String) (markers : JSValue) : JSValue :=
  JSValue.obj
    [("@_offset", JSValue.str offset), ("@_start", JSValue.str start),
     ("chapter-marker", markers)]

/-- Claim C3's example document: one clip holding an ordered sequence of
two markers and, elsewhere in the tree, another clip holding one marker as
a single object, both nested several containers deep. -/
def exampleTree (n1 s1 n2 s2 n3 s3 off1 st1 off2 st2 : String) : JSValue :=
  JSValue.obj
    [("fcpxml", JSValue.obj
      [("project", JSValue.obj
        [("spine", JSValue.obj
          [("asset-clip",
            clipNode off1 st1 (JSValue.arr [markerNode n1 s1, markerNode n2 s2])),
           ("ref-clip", clipNode off2 st2 (markerNode n3 s3))])])])]

/-- The hour/minute/second string the resolver produces for a finite floored
offset `o`, expressed with truncated integer division (the form the code's
`%` and exact divisions compute). -/
def hmsCore (o : ℤ) : String :=
  padStart2 (intToString ((o.tdiv 60).tdiv 60)) ++ ":" ++
  padStart2 (intToString ((o.tdiv 60).tmod 60)) ++ ":" ++
  padStart2 (intToString (o.tmod 60))

instance : IsTotal String lineLe where
  total a b := by
    unfold lineLe
    generalize utf16Units a = x
    generalize utf16Units b = y
    induction x generalizing y with
    | nil => exact Or.inl rfl
    | cons u us ih =>
      cases y with
      | nil => exact Or.inr rfl
      | cons v vs =>
        by_cases huv : u < v
        · exact Or.inl (by simp [unitsLe, huv])
        · by_cases hvu : v < u
          · exact Or.inr (by simp [unitsLe, hvu, huv])
          · rcases ih vs with h | h
            · exact Or.inl (by simp [unitsLe, huv, hvu, h])
            · exact Or.inr (by simp [unitsLe, huv, hvu, h])

instance : IsTrans String lineLe where
  trans a b c hab hbc := by
    unfold lineLe at hab hbc ⊢
    generalize hx : utf16Units a = x at hab
    generalize hy : utf16Units b = y at hab hbc
    generalize hz : utf16Units c = z at hbc
    clear hx hy hz
    induction x generalizing y z with
    | nil => rfl
    | cons u us ih =>
      cases y with
      | nil => simp [unitsLe] at hab
      | cons v vs =>
        cases z with
        | nil => simp [unitsLe] at hbc
        | cons w ws =>
          rcases Nat.lt_trichotomy u v with h1 | h1 | h1
          · rcases Nat.lt_trichotomy v w with h2 | h2 | h2
            · simp [unitsLe, show u < w by omega]
            · simp [unitsLe, show u < w by omega]
            · simp only [unitsLe, if_neg (show ¬ v < w by omega), if_pos h2] at hbc
              exact absurd hbc (by decide)
          · rcases Nat.lt_trichotomy v w with h2 | h2 | h2
            · simp [unitsLe, show u < w by omega]
            · subst h1
              subst h2
              simp only [unitsLe, if_neg (lt_irrefl u)] at hab hbc ⊢
              exact ih vs hab ws hbc
            · simp only [unitsLe, if_neg (show ¬ v < w by omega), if_pos h2] at hbc
              exact absurd hbc (by decide)
          · simp only [unitsLe, if_neg (show ¬ u < v by omega), if_pos h1] at hab
            exact absurd hab (by decide)

/-! ## Lemmas: digits, the decimal printer and `parseInt` -/

theorem digitChar_isDigit {d : ℕ} (h : d < 10) : (Nat.digitChar d).isDigit = true := by
  interval_cases d <;> decide

theorem digitChar_val {d : ℕ} (h : d < 10) : (Nat.digitChar d).toNat - 48 = d := by
  interval_cases d <;> decide

theorem digitsVal_append (xs ys : List Char) :
    digitsVal (xs ++ ys) = ys.foldl (fun a c => 10 * a + (c.toNat - 48)) (digitsVal xs) := by
  unfold digitsVal
  rw [List.foldl_append]

theorem digitsVal_concat (xs : List Char) (c : Char) :
    digitsVal (xs ++ [c]) = 10 * digitsVal xs + (c.toNat - 48) := by
  simp [digitsVal_append, List.foldl]

theorem digitsVal_replicate_zero (k : ℕ) (ds : List Char) :
    digitsVal (List.replicate k '0' ++ ds) = digitsVal ds := by
  induction k with
  | zero => simp
  | succ k ih =>
    have : List.replicate (k + 1) '0' ++ ds = '0' :: (List.replicate k '0' ++ ds) := by
      simp [List.replicate_succ]
    rw [this]
    unfold digitsVal at ih ⊢
    simpa using ih

theorem natToDigitsAux_spec :
    ∀ fuel n : ℕ, n < fuel →
      IsDigitString (natToDigitsAux fuel n) ∧ digitsVal (natToDigitsAux fuel n) = n := by
  intro fuel
  induction fuel with
  | zero => intro n hn; omega
  | succ fuel ih =>
    intro n hn
    by_cases h10 : n < 10
    · refine ⟨⟨by simp [natToDigitsAux, h10], ?_⟩, ?_⟩
      · intro c hc
        simp [natToDigitsAux, h10] at hc
        subst hc
        exact digitChar_isDigit h10
      · simp [natToDigitsAux, h10, digitsVal, List.foldl, digitChar_val h10]
    · have hrec : n / 10 < fuel := by omega
      obtain ⟨⟨hne, hdig⟩, hval⟩ := ih (n / 10) hrec
      have hstep : natToDigitsAux (fuel + 1) n =
          natToDigitsAux fuel (n / 10) ++ [Nat.digitChar (n % 10)] := by
        simp [natToDigitsAux, h10]
      refine ⟨⟨by simp [hstep], ?_⟩, ?_⟩
      · intro c hc
        rw [hstep] at hc
        rcases List.mem_append.1 hc with h | h
        · exact hdig c h
        · simp at h
          subst h
          exact digitChar_isDigit (Nat.mod_lt _ (by omega))
      · rw [hstep, digitsVal_concat, hval, digitChar_val (Nat.mod_lt _ (by omega))]
        omega

theorem natToString_spec (n : ℕ) :
    IsDigitString (natToString n).data ∧ digitsVal (natToString n).data = n := by
  have := natToDigitsAux_spec (n + 1) n (by omega)
  simpa [natToString] using this

theorem isDigit_not_jsWhitespace {c : Char} (h : c.isDigit = true) :
    isJsWhitespace c = false := by
  simp only [isJsWhitespace, decide_eq_false_iff_not]
  rintro (rfl | rfl | rfl | rfl | rfl | rfl) <;> exact absurd h (by decide)

theorem takeWhile_isDigit_of_all {ds : List Char} (h : ∀ c ∈ ds, c.isDigit = true) :
    ds.takeWhile Char.isDigit = ds := by
  induction ds with
  | nil => rfl
  | cons d rest ih =>
    rw [List.takeWhile_cons, h d (by simp)]
    simp [ih (fun c hc => h c (by simp [hc]))]

theorem parseDecDigits_of_digits {ds : List Char} (h : IsDigitString ds) :
    parseDecDigits ds = some (digitsVal ds) := by
  obtain ⟨hne, hdig⟩ := h
  unfold parseDecDigits
  rw [takeWhile_isDigit_of_all hdig]
  simp [List.isEmpty_iff, hne, digitsVal]

theorem parseIntNoSign_of_digits {ds : List Char} (h : IsDigitString ds) :
    parseIntNoSign ds = some (digitsVal ds) := by
  obtain ⟨hne, hdig⟩ := h
  rw [parseIntNoSign, if_neg, parseDecDigits_of_digits ⟨hne, hdig⟩]
  rintro ⟨h0, hx | hx⟩ <;>
  · rcases ds with _ | ⟨d, rest⟩
    · exact absurd h0 (by simp)
    · rcases rest with _ | ⟨e, rest2⟩
      · exact absurd hx (by simp)
      · simp only [List.tail_cons, List.head?_cons, Option.some.injEq] at hx
        have := hdig e (by simp)
        rw [hx] at this
        exact absurd this (by decide)

theorem jsParseInt_of_digits {ds : List Char} (h : IsDigitString ds) :
    jsParseInt ds = some ((digitsVal ds : ℕ) : ℤ) := by
  obtain ⟨hne, hdig⟩ := h
  rcases ds with _ | ⟨d, rest⟩
  · exact absurd rfl hne
  · have hd : d.isDigit = true := hdig d (by simp)
    have hdrop : List.dropWhile isJsWhitespace (d :: rest) = d :: rest := by
      rw [List.dropWhile_cons, isDigit_not_jsWhitespace hd]
      simp
    have hminus : d ≠ '-' := by
      intro heq
      rw [heq] at hd
      exact absurd hd (by decide)
    have hplus : d ≠ '+' := by
      intro heq
      rw [heq] at hd
      exact absurd hd (by decide)
    rw [jsParseInt]
    simp only [hdrop, List.head?_cons, Option.some.injEq]
    rw [if_neg hminus, if_neg hplus, parseIntNoSign_of_digits ⟨hne, hdig⟩]
    rfl

theorem padStart2_data (s : String) :
    (padStart2 s).data =
      if 2 ≤ s.length then s.data else List.replicate (2 - s.length) '0' ++ s.data := by
  unfold padStart2
  split <;> rfl

theorem isDigitString_pad {ds : List Char} (k : ℕ) (h : IsDigitString ds) :
    IsDigitString (List.replicate k '0' ++ ds) := by
  obtain ⟨hne, hdig⟩ := h
  constructor
  · simp [hne]
  · intro c hc
    rcases List.mem_append.1 hc with h | h
    · rw [List.eq_of_mem_replicate h]
      decide
    · exact hdig c h

theorem jsParseInt_pad_of_digits {ds : List Char} (k : ℕ) (h : IsDigitString ds) :
    jsParseInt (List.replicate k '0' ++ ds) = some ((digitsVal ds : ℕ) : ℤ) := by
  rw [jsParseInt_of_digits (isDigitString_pad k h), digitsVal_replicate_zero]

theorem jsParseInt_padded_intToString (i : ℤ) :
    jsParseInt (padStart2 (intToString i)).data = some i := by
  by_cases hneg : i < 0
  · have hdata : (intToString i).data = '-' :: (natToString i.natAbs).data := by
      rw [intToString, if_pos hneg]
      simp [String.data_append]
    have hlen : 2 ≤ (intToString i).length := by
      show 2 ≤ (intToString i).data.length
      rw [hdata]
      have := (natToString_spec i.natAbs).1.1
      simp only [List.length_cons]
      have : 0 < (natToString i.natAbs).data.length := List.length_pos.2 this
      omega
    rw [padStart2_data, if_pos hlen, hdata]
    have hws : isJsWhitespace '-' = false := by decide
    have hdrop : List.dropWhile isJsWhitespace ('-' :: (natToString i.natAbs).data) =
        '-' :: (natToString i.natAbs).data := by
      rw [List.dropWhile_cons, hws]
      simp
    rw [jsParseInt]
    simp only [hdrop, List.head?_cons, List.tail_cons]
    rw [if_pos trivial, parseIntNoSign_of_digits (natToString_spec i.natAbs).1,
      (natToString_spec i.natAbs).2]
    show some (-(i.natAbs : ℤ)) = some i
    simp only [Option.some.injEq]
    omega
  · push_neg at hneg
    have hstr : intToString i = natToString i.toNat := by
      rw [intToString, if_neg (not_lt.2 hneg)]
    rw [hstr, padStart2_data]
    split
    · rw [jsParseInt_of_digits (natToString_spec i.toNat).1, (natToString_spec i.toNat).2,
        Int.toNat_of_nonneg hneg]
    · rw [jsParseInt_pad_of_digits _ (natToString_spec i.toNat).1,
        (natToString_spec i.toNat).2, Int.toNat_of_nonneg hneg]

theorem chars_pad_intToString (i : ℤ) :
    ∀ c ∈ (padStart2 (intToString i)).data, c.isDigit = true ∨ c = '-' := by
  intro c hc
  rw [padStart2_data] at hc
  have base : ∀ c ∈ (intToString i).data, c.isDigit = true ∨ c = '-' := by
    intro c hc
    rw [intToString] at hc
    split at hc
    · rw [String.data_append] at hc
      rcases List.mem_append.1 hc with h | h
      · right
        simpa using h
      · exact Or.inl ((natToString_spec _).1.2 c h)
    · exact Or.inl ((natToString_spec _).1.2 c hc)
  split at hc
  · exact base c hc
  · rcases List.mem_append.1 hc with h | h
    · left
      rw [List.eq_of_mem_replicate h]
      decide
    · exact base c h

/-! ## Lemmas: splitting and the trailing-`s` strip -/

theorem splitOnChar_no_sep {sep : Char} :
    ∀ {cs : List Char}, (∀ c ∈ cs, c ≠ sep) → splitOnChar sep cs = [cs] := by
  intro cs
  induction cs with
  | nil => intro _; rfl
  | cons c rest ih =>
    intro h
    rw [splitOnChar, if_neg (h c (by simp)), ih (fun d hd => h d (by simp [hd]))]

theorem splitOnChar_append_sep {sep : Char} (xs ys : List Char)
    (h : ∀ c ∈ xs, c ≠ sep) :
    splitOnChar sep (xs ++ sep :: ys) = xs :: splitOnChar sep ys := by
  induction xs with
  | nil => simp [splitOnChar]
  | cons x xt ih =>
    have hx : x ≠ sep := h x (by simp)
    rw [List.cons_append, splitOnChar, if_neg hx, ih (fun d hd => h d (by simp [hd]))]

theorem mem_of_mem_splitOnChar {sep : Char} :
    ∀ {cs : List Char} {p : List Char} {c : Char},
      p ∈ splitOnChar sep cs → c ∈ p → c ∈ cs := by
  intro cs
  induction cs with
  | nil =>
    intro p c hp hc
    simp [splitOnChar] at hp
    subst hp
    simp at hc
  | cons d rest ih =>
    intro p c hp hc
    rw [splitOnChar] at hp
    by_cases hd : d = sep
    · rw [if_pos hd] at hp
      rcases List.mem_cons.1 hp with rfl | hp
      · simp at hc
      · exact List.mem_cons_of_mem _ (ih hp hc)
    · rw [if_neg hd] at hp
      rcases hsplit : splitOnChar sep rest with _ | ⟨q, qs⟩
      · rw [hsplit] at hp
        simp at hp
        subst hp
        simp at hc
        simp [hc]
      · rw [hsplit] at hp
        rcases List.mem_cons.1 hp with rfl | hp
        · rcases List.mem_cons.1 hc with rfl | hc
          · simp
          · exact List.mem_cons_of_mem _ (ih (hsplit ▸ List.mem_cons_self q qs) hc)
        · exact List.mem_cons_of_mem _ (ih (hsplit ▸ List.mem_cons_of_mem q hp) hc)

theorem stripTrailingS_concat (xs : List Char) :
    stripTrailingS (xs ++ ['s']) = xs := by
  rw [stripTrailingS, List.getLast?_concat]
  simp

theorem mem_of_getLast? : ∀ {l : List Char} {c : Char}, l.getLast? = some c → c ∈ l := by
  intro l
  induction l with
  | nil => intro c h; simp at h
  | cons a t ih =>
    intro c h
    rcases t with _ | ⟨b, t'⟩
    · simp at h
      simp [h]
    · rw [List.getLast?_cons_cons] at h
      exact List.mem_cons_of_mem _ (ih h)

theorem stripTrailingS_of_getLast_ne {cs : List Char} {c : Char}
    (h : cs.getLast? = some c) (hc : c ≠ 's') : stripTrailingS cs = cs := by
  rw [stripTrailingS, h]
  simp [hc]

theorem mem_stripTrailingS {cs : List Char} {c : Char}
    (h : c ∈ stripTrailingS cs) : c ∈ cs := by
  rw [stripTrailingS] at h
  rcases hlast : cs.getLast? with _ | d
  · rw [hlast] at h
    exact h
  · rw [hlast] at h
    by_cases hd : d = 's'
    · subst hd
      simp at h
      exact (List.dropLast_sublist cs).subset h
    · simp [hd] at h
      exact h

theorem getLast?_append_cons_of_ne_nil {xs ys : List Char} {d : Char}
    (h : ys ≠ []) : (xs ++ d :: ys).getLast? = ys.getLast? := by
  rw [List.getLast?_append]
  rcases hy : ys.getLast? with _ | c
  · exact absurd (List.getLast?_eq_none_iff.1 hy) h
  · simp [List.getLast?_cons, hy]

/-! ## Lemmas: evaluating `convertRationalNumber` on well-formed inputs -/

theorem ne_of_isDigit {c d : Char} (h : c.isDigit = true) (hd : d.isDigit = false) :
    c ≠ d := by
  intro he
  subst he
  rw [h] at hd
  exact absurd hd (by decide)

theorem parseIntNum_of_digits {ds : List Char} (h : IsDigitString ds) :
    parseIntNum ds = JSNum.rat ((digitsVal ds : ℕ) : ℚ) := by
  rw [parseIntNum, jsParseInt_of_digits h]
  norm_num

theorem stripTrailingS_slash_form {ds1 ds2 : List Char} (h2 : IsDigitString ds2) :
    stripTrailingS (ds1 ++ '/' :: ds2) = ds1 ++ '/' :: ds2 ∧
    stripTrailingS (ds1 ++ '/' :: (ds2 ++ ['s'])) = ds1 ++ '/' :: ds2 := by
  constructor
  · rcases hlast : ds2.getLast? with _ | c
    · exact absurd (List.getLast?_eq_none_iff.1 hlast) h2.1
    · have hc : c.isDigit = true := h2.2 c (mem_of_getLast? hlast)
      exact stripTrailingS_of_getLast_ne
        (by rw [getLast?_append_cons_of_ne_nil h2.1, hlast])
        (ne_of_isDigit hc (by decide))
  · have : ds1 ++ '/' :: (ds2 ++ ['s']) = (ds1 ++ '/' :: ds2) ++ ['s'] := by simp
    rw [this, stripTrailingS_concat]

theorem stripTrailingS_digits_form {ds : List Char} (h : IsDigitString ds) :
    stripTrailingS ds = ds ∧ stripTrailingS (ds ++ ['s']) = ds := by
  constructor
  · rcases hlast : ds.getLast? with _ | c
    · exact absurd (List.getLast?_eq_none_iff.1 hlast) h.1
    · exact stripTrailingS_of_getLast_ne hlast
        (ne_of_isDigit (h.2 c (mem_of_getLast? hlast)) (by decide))
  · exact stripTrailingS_concat ds

theorem splitOnChar_digits_pair {ds1 ds2 : List Char}
    (h1 : IsDigitString ds1) (h2 : IsDigitString ds2) :
    splitOnChar '/' (ds1 ++ '/' :: ds2) = [ds1, ds2] := by
  rw [splitOnChar_append_sep ds1 _ (fun c hc => ne_of_isDigit (h1.2 c hc) (by decide)),
    splitOnChar_no_sep (fun c hc => ne_of_isDigit (h2.2 c hc) (by decide))]

theorem convertRationalNumber_eval {s : String} {ds1 ds2 : List Char}
    (h1 : IsDigitString ds1) (h2 : IsDigitString ds2)
    (hs : stripTrailingS s.data = ds1 ++ '/' :: ds2) :
    convertRationalNumber (JSValue.str s) =
      JSNum.div (JSNum.rat ((digitsVal ds1 : ℕ) : ℚ))
        (JSNum.rat ((digitsVal ds2 : ℕ) : ℚ)) := by
  rw [convertRationalNumber]
  show (match splitOnChar '/' (stripTrailingS s.data) with
    | [a, b] => JSNum.div (parseIntNum a) (parseIntNum b)
    | _ => JSNum.rat 0) = _
  rw [hs, splitOnChar_digits_pair h1 h2]
  show JSNum.div (parseIntNum ds1) (parseIntNum ds2) = _
  rw [parseIntNum_of_digits h1, parseIntNum_of_digits h2]

theorem convertRationalNumberPermissive_eval {s : String} {ds1 ds2 : List Char}
    (h1 : IsDigitString ds1) (h2 : IsDigitString ds2)
    (hs : stripTrailingS s.data = ds1 ++ '/' :: ds2) :
    convertRationalNumberPermissive (JSValue.str s) =
      JSNum.div (JSNum.rat ((digitsVal ds1 : ℕ) : ℚ))
        (JSNum.rat ((digitsVal ds2 : ℕ) : ℚ)) := by
  rw [convertRationalNumberPermissive]
  show (match splitOnChar '/' (stripTrailingS s.data) with
    | [a] => parseIntNum a
    | a :: b :: _ => JSNum.div (parseIntNum a) (parseIntNum b)
    | [] => JSNum.nan) = _
  rw [hs, splitOnChar_digits_pair h1 h2]
  show JSNum.div (parseIntNum ds1) (parseIntNum ds2) = _
  rw [parseIntNum_of_digits h1, parseIntNum_of_digits h2]

theorem convertRationalNumberPermissive_eval_single {s : String} {ds : List Char}
    (h : IsDigitString ds) (hs : stripTrailingS s.data = ds) :
    convertRationalNumberPermissive (JSValue.str s) =
      JSNum.rat ((digitsVal ds : ℕ) : ℚ) := by
  rw [convertRationalNumberPermissive]
  show (match splitOnChar '/' (stripTrailingS s.data) with
    | [a] => parseIntNum a
    | a :: b :: _ => JSNum.div (parseIntNum a) (parseIntNum b)
    | [] => JSNum.nan) = _
  rw [hs, splitOnChar_no_sep (fun c hc => ne_of_isDigit (h.2 c hc) (by decide))]
  show parseIntNum ds = _
  rw [parseIntNum_of_digits h]

/-! ## Lemmas: the time decomposition arithmetic -/

theorem ratTrunc_intCast_div_natCast (t : ℤ) (n : ℕ) :
    JSNum.ratTrunc ((t : ℚ) / (n : ℚ)) = t.tdiv n := by
  rcases le_or_lt 0 t with ht | ht
  · have hq : (0 : ℚ) ≤ (t : ℚ) / (n : ℚ) :=
      div_nonneg (by exact_mod_cast ht) (by positivity)
    rw [JSNum.ratTrunc, if_pos hq, Rat.floor_intCast_div_natCast,
      Int.tdiv_eq_ediv ht (by positivity)]
  · rcases Nat.eq_zero_or_pos n with rfl | hn
    · simp [JSNum.ratTrunc]
    · have hq : (t : ℚ) / (n : ℚ) < 0 :=
        div_neg_of_neg_of_pos (by exact_mod_cast ht) (by exact_mod_cast hn)
      rw [JSNum.ratTrunc, if_neg (not_le.2 hq)]
      have hceil : ⌈(t : ℚ) / (n : ℚ)⌉ = -⌊((-t : ℤ) : ℚ) / (n : ℚ)⌋ := by
        have hneg : ((-t : ℤ) : ℚ) / (n : ℚ) = -((t : ℚ) / (n : ℚ)) := by
          push_cast
          ring
        rw [hneg, Int.floor_neg, neg_neg]
      rw [hceil, Rat.floor_intCast_div_natCast]
      have : (-t).tdiv n = (-t) / (n : ℤ) :=
        Int.tdiv_eq_ediv (by omega) (by positivity)
      rw [← this, Int.neg_tdiv, neg_neg]

theorem rem_intCast (t : ℤ) (n : ℕ) (hn : n ≠ 0) :
    JSNum.rem (JSNum.rat (t : ℚ)) (JSNum.rat (n : ℚ)) =
      JSNum.rat ((t.tmod n : ℤ) : ℚ) := by
  rw [JSNum.rem]
  rw [if_neg (by exact_mod_cast hn)]
  rw [ratTrunc_intCast_div_natCast]
  congr 1
  have h2 : t - (n : ℤ) * t.tdiv n = t.tmod n := by
    have h := Int.tdiv_add_tmod t (n : ℤ)
    omega
  exact_mod_cast h2

theorem jsNumToString_intCast (k : ℤ) :
    jsNumToString (JSNum.rat (k : ℚ)) = intToString k := by
  rw [jsNumToString]
  simp [Rat.den_intCast, Rat.num_intCast]

theorem calcWith_finite (conv : JSValue → JSNum) (c : Chapter) (q1 q2 q3 : ℚ)
    (h1 : conv c.start = JSNum.rat q1) (h2 : conv c.assetStart = JSNum.rat q2)
    (h3 : conv c.assetOffset = JSNum.rat q3) (hge : q2 ≤ q1) :
    calculateChapterTimeWith conv c = some (hmsCore ⌊q1 - q2 + q3⌋) := by
  set o : ℤ := ⌊q1 - q2 + q3⌋ with ho
  have hlt : JSNum.lt (JSNum.rat q1) (JSNum.rat q2) = false := by
    simp [JSNum.lt, not_lt.2 hge]
  rw [calculateChapterTimeWith, h1, h2, h3, hlt]
  simp only [Bool.false_eq_true, if_false]
  have hsub : JSNum.sub (JSNum.rat q1) (JSNum.rat q2) = JSNum.rat (q1 - q2) := rfl
  have hadd : JSNum.add (JSNum.rat (q1 - q2)) (JSNum.rat q3) =
      JSNum.rat (q1 - q2 + q3) := rfl
  have hfloor : JSNum.floorNum (JSNum.rat (q1 - q2 + q3)) = JSNum.rat ((o : ℤ) : ℚ) := by
    rw [JSNum.floorNum, ho]
  rw [hsub, hadd, hfloor]
  have hsec : JSNum.rem (JSNum.rat ((o : ℤ) : ℚ)) (JSNum.rat 60) =
      JSNum.rat ((o.tmod 60 : ℤ) : ℚ) := by
    have := rem_intCast o 60 (by omega)
    simpa using this
  rw [hsec]
  have hsub2 : JSNum.sub (JSNum.rat ((o : ℤ) : ℚ)) (JSNum.rat ((o.tmod 60 : ℤ) : ℚ)) =
      JSNum.rat (((o - o.tmod 60 : ℤ) : ℚ)) := by
    rw [JSNum.sub]
    push_cast
    norm_num
  rw [hsub2]
  have hdivisible : (o - o.tmod 60 : ℤ) = 60 * o.tdiv 60 := by
    have := Int.tdiv_add_tmod o 60
    omega
  have hdiv : JSNum.div (JSNum.rat (((o - o.tmod 60 : ℤ) : ℚ))) (JSNum.rat 60) =
      JSNum.rat (((o.tdiv 60 : ℤ) : ℚ)) := by
    rw [JSNum.div, if_neg (by norm_num)]
    congr 1
    rw [hdivisible]
    push_cast
    ring
  rw [hdiv]
  have hmin : JSNum.rem (JSNum.rat ((o.tdiv 60 : ℤ) : ℚ)) (JSNum.rat 60) =
      JSNum.rat (((o.tdiv 60).tmod 60 : ℤ) : ℚ) := by
    have := rem_intCast (o.tdiv 60) 60 (by omega)
    simpa using this
  rw [hmin]
  have hmul : JSNum.mul (JSNum.rat (((o.tdiv 60).tmod 60 : ℤ) : ℚ)) (JSNum.rat 60) =
      JSNum.rat ((((o.tdiv 60).tmod 60 * 60 : ℤ) : ℚ)) := by
    rw [JSNum.mul]
    push_cast
    norm_num
  have hsub3 : JSNum.sub (JSNum.rat (((o - o.tmod 60 : ℤ) : ℚ)))
      (JSNum.rat ((((o.tdiv 60).tmod 60 * 60 : ℤ) : ℚ))) =
      JSNum.rat (((o - o.tmod 60 - (o.tdiv 60).tmod 60 * 60 : ℤ) : ℚ)) := by
    rw [JSNum.sub]
    push_cast
    norm_num
  rw [hmul, hsub3]
  have hdivisible2 : (o - o.tmod 60 - (o.tdiv 60).tmod 60 * 60 : ℤ) =
      3600 * (o.tdiv 60).tdiv 60 := by
    have ha := Int.tdiv_add_tmod o 60
    have hb := Int.tdiv_add_tmod (o.tdiv 60) 60
    nlinarith [ha, hb]
  have hdiv2 : JSNum.div
      (JSNum.rat (((o - o.tmod 60 - (o.tdiv 60).tmod 60 * 60 : ℤ) : ℚ)))
      (JSNum.rat 3600) = JSNum.rat ((((o.tdiv 60).tdiv 60 : ℤ) : ℚ)) := by
    rw [JSNum.div, if_neg (by norm_num)]
    congr 1
    rw [hdivisible2]
    push_cast
    ring
  rw [hdiv2]
  rw [jsNumToString_intCast, jsNumToString_intCast, jsNumToString_intCast]
  rfl

theorem claimMinutes_eq (o : ℤ) : claimMinutes o = (o.tdiv 60).tmod 60 := by
  rw [claimMinutes, claimSeconds]
  have ha := Int.tdiv_add_tmod o 60
  have : o - o.tmod 60 = 60 * o.tdiv 60 := by omega
  rw [this, Int.mul_ediv_cancel_left _ (by norm_num)]

theorem claimHours_eq (o : ℤ) : claimHours o = (o.tdiv 60).tdiv 60 := by
  have ha := Int.tdiv_add_tmod o 60
  have hb := Int.tdiv_add_tmod (o.tdiv 60) 60
  rw [claimHours, claimMinutes_eq, claimSeconds]
  have : o - o.tmod 60 - (o.tdiv 60).tmod 60 * 60 = 3600 * (o.tdiv 60).tdiv 60 := by
    nlinarith [ha, hb]
  rw [this, Int.mul_ediv_cancel_left _ (by norm_num)]

theorem claimTimeString_eq_hmsCore (o : ℤ) : claimTimeString o = hmsCore o := by
  rw [claimTimeString, hmsCore, claimMinutes_eq, claimHours_eq, claimSeconds]

/-! ## Lemmas: re-parsing the emitted time string -/

theorem chars_pad_ne_colon (i : ℤ) :
    ∀ c ∈ (padStart2 (intToString i)).data, c ≠ ':' := by
  intro c hc
  rcases chars_pad_intToString i c hc with h | h
  · exact ne_of_isDigit h (by decide)
  · subst h
    decide

theorem hmsCore_data (o : ℤ) :
    (hmsCore o).data =
      (padStart2 (intToString ((o.tdiv 60).tdiv 60))).data ++
      ':' :: ((padStart2 (intToString ((o.tdiv 60).tmod 60))).data ++
      ':' :: (padStart2 (intToString (o.tmod 60))).data) := by
  rw [hmsCore]
  simp [String.data_append]

theorem parseHMS_hmsCore (o : ℤ) :
    parseHMS (hmsCore o) =
      some ((o.tdiv 60).tdiv 60, (o.tdiv 60).tmod 60, o.tmod 60) := by
  rw [parseHMS]
  rw [hmsCore_data,
    splitOnChar_append_sep _ _ (chars_pad_ne_colon ((o.tdiv 60).tdiv 60)),
    splitOnChar_append_sep _ _ (chars_pad_ne_colon ((o.tdiv 60).tmod 60)),
    splitOnChar_no_sep (chars_pad_ne_colon (o.tmod 60))]
  show (match jsParseInt (padStart2 (intToString ((o.tdiv 60).tdiv 60))).data,
      jsParseInt (padStart2 (intToString ((o.tdiv 60).tmod 60))).data,
      jsParseInt (padStart2 (intToString (o.tmod 60))).data with
    | some a, some b, some c => some (a, b, c)
    | _, _, _ => none) = _
  rw [jsParseInt_padded_intToString, jsParseInt_padded_intToString,
    jsParseInt_padded_intToString]

theorem padStart2_data_ne_nil (s : String) : (padStart2 s).data ≠ [] := by
  rw [padStart2_data]
  split
  · intro h
    have : s.length = 0 := by
      show s.data.length = 0
      rw [h]
      rfl
    omega
  · intro h
    rcases List.append_eq_nil.1 h with ⟨hrep, _⟩
    have : 2 - s.length = 0 := by
      have := congrArg List.length hrep
      simpa using this
    omega

theorem hmsCore_ne_empty (o : ℤ) : hmsCore o ≠ "" := by
  intro h
  have := congrArg String.data h
  rw [hmsCore_data] at this
  simp only [String.data] at this
  exact absurd this (by simp [padStart2_data_ne_nil])

/-! ## Lemmas: sign of conversion results -/

theorem mem_of_head? {l : List Char} {c : Char} (h : l.head? = some c) : c ∈ l := by
  rcases l with _ | ⟨a, t⟩
  · simp at h
  · simp at h
    simp [h]

theorem jsParseInt_no_minus {cs : List Char} (h : '-' ∉ cs) :
    jsParseInt cs = none ∨ ∃ n : ℕ, jsParseInt cs = some (n : ℤ) := by
  have hr : '-' ∉ cs.dropWhile isJsWhitespace :=
    fun hm => h ((List.dropWhile_sublist isJsWhitespace).subset hm)
  rw [jsParseInt]
  have hhead : ¬ (cs.dropWhile isJsWhitespace).head? = some '-' :=
    fun hh => hr (mem_of_head? hh)
  rw [if_neg hhead]
  by_cases hplus : (cs.dropWhile isJsWhitespace).head? = some '+'
  · rw [if_pos hplus]
    rcases parseIntNoSign (cs.dropWhile isJsWhitespace).tail with _ | n
    · exact Or.inl rfl
    · exact Or.inr ⟨n, rfl⟩
  · rw [if_neg hplus]
    rcases parseIntNoSign (cs.dropWhile isJsWhitespace) with _ | n
    · exact Or.inl rfl
    · exact Or.inr ⟨n, rfl⟩

theorem parseIntNum_no_minus {cs : List Char} (h : '-' ∉ cs) :
    parseIntNum cs = JSNum.nan ∨ ∃ n : ℕ, parseIntNum cs = JSNum.rat (n : ℚ) := by
  rcases jsParseInt_no_minus h with h' | ⟨n, h'⟩
  · left
    rw [parseIntNum, h']
  · right
    refine ⟨n, ?_⟩
    rw [parseIntNum, h']
    norm_num

theorem div_nonNegOrNaN {a b : JSNum}
    (ha : a = JSNum.nan ∨ ∃ n : ℕ, a = JSNum.rat (n : ℚ))
    (hb : b = JSNum.nan ∨ ∃ n : ℕ, b = JSNum.rat (n : ℚ)) :
    (JSNum.div a b).nonNegOrNaN := by
  rcases ha with rfl | ⟨n, rfl⟩
  · rcases hb with rfl | ⟨m, rfl⟩ <;> simp [JSNum.div, JSNum.nonNegOrNaN]
  · rcases hb with rfl | ⟨m, rfl⟩
    · simp [JSNum.div, JSNum.nonNegOrNaN]
    · rw [JSNum.div]
      by_cases hm : (m : ℚ) = 0
      · rw [if_pos hm]
        by_cases hn : (n : ℚ) = 0
        · rw [if_pos hn]
          simp [JSNum.nonNegOrNaN]
        · rw [if_neg hn, if_pos (by positivity)]
          simp [JSNum.nonNegOrNaN]
      · rw [if_neg hm]
        show (0 : ℚ) ≤ (n : ℚ) / (m : ℚ)
        positivity

/-! ## Lemmas: the tree walk finds nested markers -/

theorem segment_widen {l r x : List Chapter} (h : l <:+: r) :
    l <:+: x ++ r := by
  obtain ⟨s, t, hst⟩ := h
  exact ⟨x ++ s, t, by rw [← hst]; simp⟩

theorem findInFields_segment :
    ∀ (fields : List (String × JSValue)) (k : String) (v : JSValue),
      (k, v) ∈ fields → v.isObjectType = true →
      findChapterMarkers v <:+: findInFields fields := by
  intro fields
  induction fields with
  | nil => intro k v hm _; simp at hm
  | cons kv rest ih =>
    intro k v hm hobj
    rcases List.mem_cons.1 hm with rfl | hm
    · rw [findInFields, if_pos hobj]
      exact ⟨[], findInFields rest, by simp⟩
    · rw [findInFields]
      exact segment_widen (ih k v hm hobj)

theorem findInElems_segment :
    ∀ (elems : List JSValue) (v : JSValue),
      v ∈ elems → v.isObjectType = true →
      findChapterMarkers v <:+: findInElems elems := by
  intro elems
  induction elems with
  | nil => intro v hm _; simp at hm
  | cons e rest ih =>
    intro v hm hobj
    rcases List.mem_cons.1 hm with rfl | hm
    · rw [findInElems, if_pos hobj]
      exact ⟨[], findInElems rest, by simp⟩
    · rw [findInElems]
      exact segment_widen (ih v hm hobj)

theorem parseIntNum_none {cs : List Char} (h : jsParseInt cs = none) :
    parseIntNum cs = JSNum.nan := by
  rw [parseIntNum, h]

theorem calcWith_nan_start (conv : JSValue → JSNum) (c : Chapter)
    (h1 : conv c.start = JSNum.nan) (h2 : conv c.assetStart = JSNum.rat 0)
    (h3 : conv c.assetOffset = JSNum.rat 0) :
    calculateChapterTimeWith conv c = some "NaN:NaN:NaN" := by
  rw [calculateChapterTimeWith, h1, h2, h3]
  rfl

theorem calcWith_inf_start (conv : JSValue → JSNum) (c : Chapter)
    (h1 : conv c.start = JSNum.posInf) (h2 : conv c.assetStart = JSNum.rat 0)
    (h3 : conv c.assetOffset = JSNum.rat 0) :
    calculateChapterTimeWith conv c = some "NaN:NaN:NaN" := by
  rw [calculateChapterTimeWith, h1, h2, h3]
  rfl

/-! ## The claims -/

/-- C1: for every chapter record whose `start`, `assetStart` and
`assetOffset` fields convert to finite numbers with `start ≥ assetStart`,
`calculateChapterTime` returns the string obtained by decomposing
`offsetSeconds = ⌊start − assetStart + assetOffset⌋` into seconds, minutes
and hours exactly as the claim's formulas state (with `mod` the code's
remainder, whose sign follows the dividend), each component zero-padded to
at least two digits and joined by colons.  The claim's two concrete
examples are discharged in the witness. -/
theorem spec_C1 (conv : JSValue → JSNum) (c : Chapter) (q1 q2 q3 : ℚ)
    (h1 : conv c.start = JSNum.rat q1) (h2 : conv c.assetStart = JSNum.rat q2)
    (h3 : conv c.assetOffset = JSNum.rat q3) (hge : q2 ≤ q1) :
    calculateChapterTimeWith conv c = some (claimTimeString ⌊q1 - q2 + q3⌋) := by
  rw [calcWith_finite conv c q1 q2 q3 h1 h2 h3 hge, claimTimeString_eq_hmsCore]

theorem spec_C1_witness :
    calculateChapterTime
      { name := JSValue.str "Chapter", start := JSValue.str "7500/7500",
        assetOffset := JSValue.str "0/7500", assetStart := JSValue.str "0/7500" } =
      some "00:00:01" ∧
    calculateChapterTime
      { name := JSValue.str "Chapter", start := JSValue.str "3661/1",
        assetOffset := JSValue.str "0/1", assetStart := JSValue.str "0/1" } =
      some "01:01:01" := by
  constructor
  · have h := spec_C1 convertRationalNumber
      { name := JSValue.str "Chapter", start := JSValue.str "7500/7500",
        assetOffset := JSValue.str "0/7500", assetStart := JSValue.str "0/7500" }
      1 0 0
      (by
        show convertRationalNumber (JSValue.str "7500/7500") = JSNum.rat 1
        rw [@convertRationalNumber_eval "7500/7500" ['7','5','0','0'] ['7','5','0','0']
          (by constructor <;> decide) (by constructor <;> decide) (by decide),
          show digitsVal ['7','5','0','0'] = 7500 from by decide]
        norm_num [JSNum.div])
      (by
        show convertRationalNumber (JSValue.str "0/7500") = JSNum.rat 0
        rw [@convertRationalNumber_eval "0/7500" ['0'] ['7','5','0','0']
          (by constructor <;> decide) (by constructor <;> decide) (by decide),
          show digitsVal ['0'] = 0 from by decide,
          show digitsVal ['7','5','0','0'] = 7500 from by decide]
        norm_num [JSNum.div])
      (by
        show convertRationalNumber (JSValue.str "0/7500") = JSNum.rat 0
        rw [@convertRationalNumber_eval "0/7500" ['0'] ['7','5','0','0']
          (by constructor <;> decide) (by constructor <;> decide) (by decide),
          show digitsVal ['0'] = 0 from by decide,
          show digitsVal ['7','5','0','0'] = 7500 from by decide]
        norm_num [JSNum.div])
      (by norm_num)
    rw [calculateChapterTime, h, show (⌊(1 : ℚ) - 0 + 0⌋ : ℤ) = 1 from by norm_num]
    decide
  · have h := spec_C1 convertRationalNumber
      { name := JSValue.str "Chapter", start := JSValue.str "3661/1",
        assetOffset := JSValue.str "0/1", assetStart := JSValue.str "0/1" }
      3661 0 0
      (by
        show convertRationalNumber (JSValue.str "3661/1") = JSNum.rat 3661
        rw [@convertRationalNumber_eval "3661/1" ['3','6','6','1'] ['1']
          (by constructor <;> decide) (by constructor <;> decide) (by decide),
          show digitsVal ['3','6','6','1'] = 3661 from by decide,
          show digitsVal ['1'] = 1 from by decide]
        norm_num [JSNum.div])
      (by
        show convertRationalNumber (JSValue.str "0/1") = JSNum.rat 0
        rw [@convertRationalNumber_eval "0/1" ['0'] ['1']
          (by constructor <;> decide) (by constructor <;> decide) (by decide),
          show digitsVal ['0'] = 0 from by decide,
          show digitsVal ['1'] = 1 from by decide]
        norm_num [JSNum.div])
      (by
        show convertRationalNumber (JSValue.str "0/1") = JSNum.rat 0
        rw [@convertRationalNumber_eval "0/1" ['0'] ['1']
          (by constructor <;> decide) (by constructor <;> decide) (by decide),
          show digitsVal ['0'] = 0 from by decide,
          show digitsVal ['1'] = 1 from by decide]
        norm_num [JSNum.div])
      (by norm_num)
    rw [calculateChapterTime, h, show (⌊(3661 : ℚ) - 0 + 0⌋ : ℤ) = 3661 from by norm_num]
    decide

/-- C2: on strings of the shape `"<digits>/<digits>"`, with or without a
trailing `s`, both variants strip the `s`, split on `/` and return the
quotient of the two parsed integers (here with nonzero denominator; the
zero-denominator behaviour is claim C10); the permissive variant parses a
one-part string directly as a number of seconds.  The claim's concrete
values `7500/7500s ↦ 1` and `100s ↦ 100` are included. -/
theorem spec_C2 :
    (∀ (s : String) (ds1 ds2 : List Char), IsDigitString ds1 → IsDigitString ds2 →
      (s.data = ds1 ++ '/' :: ds2 ∨ s.data = ds1 ++ '/' :: (ds2 ++ ['s'])) →
      digitsVal ds2 ≠ 0 →
      convertRationalNumber (JSValue.str s) =
        JSNum.rat ((digitsVal ds1 : ℚ) / (digitsVal ds2 : ℚ)) ∧
      convertRationalNumberPermissive (JSValue.str s) =
        JSNum.rat ((digitsVal ds1 : ℚ) / (digitsVal ds2 : ℚ))) ∧
    (∀ (s : String) (ds : List Char), IsDigitString ds →
      (s.data = ds ∨ s.data = ds ++ ['s']) →
      convertRationalNumberPermissive (JSValue.str s) =
        JSNum.rat ((digitsVal ds : ℕ) : ℚ)) ∧
    convertRationalNumber (JSValue.str "7500/7500s") = JSNum.rat 1 ∧
    convertRationalNumberPermissive (JSValue.str "7500/7500s") = JSNum.rat 1 ∧
    convertRationalNumberPermissive (JSValue.str "100s") = JSNum.rat 100 := by
  have main : ∀ (s : String) (ds1 ds2 : List Char), IsDigitString ds1 → IsDigitString ds2 →
      (s.data = ds1 ++ '/' :: ds2 ∨ s.data = ds1 ++ '/' :: (ds2 ++ ['s'])) →
      digitsVal ds2 ≠ 0 →
      convertRationalNumber (JSValue.str s) =
        JSNum.rat ((digitsVal ds1 : ℚ) / (digitsVal ds2 : ℚ)) ∧
      convertRationalNumberPermissive (JSValue.str s) =
        JSNum.rat ((digitsVal ds1 : ℚ) / (digitsVal ds2 : ℚ)) := by
    intro s ds1 ds2 h1 h2 hform hnz
    have hnzq : ((digitsVal ds2 : ℕ) : ℚ) ≠ 0 := Nat.cast_ne_zero.2 hnz
    have hs : stripTrailingS s.data = ds1 ++ '/' :: ds2 := by
      rcases hform with hf | hf
      · rw [hf]
        exact (stripTrailingS_slash_form h2).1
      · rw [hf]
        exact (stripTrailingS_slash_form h2).2
    constructor
    · rw [convertRationalNumber_eval h1 h2 hs, JSNum.div, if_neg hnzq]
    · rw [convertRationalNumberPermissive_eval h1 h2 hs, JSNum.div, if_neg hnzq]
  refine ⟨main, ?_, ?_, ?_, ?_⟩
  · intro s ds h hform
    have hs : stripTrailingS s.data = ds := by
      rcases hform with hf | hf
      · rw [hf]
        exact (stripTrailingS_digits_form h).1
      · rw [hf]
        exact (stripTrailingS_digits_form h).2
    exact convertRationalNumberPermissive_eval_single h hs
  · have := (main "7500/7500s" ['7','5','0','0'] ['7','5','0','0']
      (by constructor <;> decide) (by constructor <;> decide)
      (Or.inr (by decide)) (by decide)).1
    rw [this, show digitsVal ['7','5','0','0'] = 7500 from by decide]
    norm_num
  · have := (main "7500/7500s" ['7','5','0','0'] ['7','5','0','0']
      (by constructor <;> decide) (by constructor <;> decide)
      (Or.inr (by decide)) (by decide)).2
    rw [this, show digitsVal ['7','5','0','0'] = 7500 from by decide]
    norm_num
  · rw [@convertRationalNumberPermissive_eval_single "100s" ['1','0','0']
      (by constructor <;> decide) (by decide),
      show digitsVal ['1','0','0'] = 100 from by decide]
    norm_num

theorem spec_C2_witness :
    convertRationalNumber (JSValue.str "10/4") = JSNum.rat ((10 : ℚ) / (4 : ℚ)) ∧
    convertRationalNumberPermissive (JSValue.str "60s") = JSNum.rat 60 := by
  constructor
  · have := (spec_C2.1 "10/4" ['1','0'] ['4']
      (by constructor <;> decide) (by constructor <;> decide)
      (Or.inl (by decide)) (by decide)).1
    rw [this, show digitsVal ['1','0'] = 10 from by decide,
      show digitsVal ['4'] = 4 from by decide]
    norm_num
  · have := spec_C2.2.1 "60s" ['6','0'] (by constructor <;> decide) (Or.inr (by decide))
    rw [this, show digitsVal ['6','0'] = 60 from by decide]
    norm_num

/-- C3: the marker collector of the recursive variant produces the records
of any object-typed child value as a contiguous segment of its parent's
output (hence markers are found at any nesting depth), treating an array
valued `chapter-marker` child as several markers and any other present
value as a single one; on the claim's example document (one clip with two
markers as an ordered sequence and another clip with a single marker
object) it produces exactly three records, each carrying its own marker's
name/start and its enclosing clip's offset/start. -/
theorem spec_C3 :
    (∀ (fields : List (String × JSValue)) (k : String) (v : JSValue),
      (k, v) ∈ fields → v.isObjectType = true →
      findChapterMarkers v <:+: findChapterMarkers (JSValue.obj fields)) ∧
    (∀ (elems : List JSValue) (v : JSValue), v ∈ elems → v.isObjectType = true →
      findChapterMarkers v <:+: findChapterMarkers (JSValue.arr elems)) ∧
    (∀ n1 s1 n2 s2 n3 s3 off1 st1 off2 st2 : String,
      findChapterMarkers (exampleTree n1 s1 n2 s2 n3 s3 off1 st1 off2 st2) =
        [⟨JSValue.str n1, JSValue.str s1, JSValue.str off1, JSValue.str st1⟩,
         ⟨JSValue.str n2, JSValue.str s2, JSValue.str off1, JSValue.str st1⟩,
         ⟨JSValue.str n3, JSValue.str s3, JSValue.str off2, JSValue.str st2⟩]) := by
  refine ⟨?_, ?_, ?_⟩
  · intro fields k v hm hobj
    show findChapterMarkers v <:+: markersAt fields ++ findInFields fields
    exact segment_widen (findInFields_segment fields k v hm hobj)
  · intro elems v hm hobj
    show findChapterMarkers v <:+: findInElems elems
    exact findInElems_segment elems v hm hobj
  · intro n1 s1 n2 s2 n3 s3 off1 st1 off2 st2
    rfl

theorem spec_C3_witness :
    findChapterMarkers (JSValue.obj [("@_value", JSValue.str "m")]) <:+:
      findChapterMarkers (JSValue.obj [("spine", JSValue.obj [("@_value", JSValue.str "m")])]) ∧
    findChapterMarkers (exampleTree "n1" "s1" "n2" "s2" "n3" "s3" "o1" "t1" "o2" "t2") =
      [⟨JSValue.str "n1", JSValue.str "s1", JSValue.str "o1", JSValue.str "t1"⟩,
       ⟨JSValue.str "n2", JSValue.str "s2", JSValue.str "o1", JSValue.str "t1"⟩,
       ⟨JSValue.str "n3", JSValue.str "s3", JSValue.str "o2", JSValue.str "t2"⟩] :=
  ⟨spec_C3.1 [("spine", JSValue.obj [("@_value", JSValue.str "m")])] "spine"
      (JSValue.obj [("@_value", JSValue.str "m")]) (by simp) rfl,
   spec_C3.2.2 "n1" "s1" "n2" "s2" "n3" "s3" "o1" "t1" "o2" "t2"⟩

theorem div_nan_left (x : JSNum) : JSNum.div JSNum.nan x = JSNum.nan := by
  cases x <;> rfl

/-- C4: a record whose converted `start` is strictly below the converted
`assetStart` (under the JavaScript comparison) resolves to the invalid
sentinel `null`, and the pipeline emits no line for it while the remaining
records are processed unchanged. -/
theorem spec_C4 (c : Chapter) (pre post : List Chapter)
    (h : JSNum.lt (convertRationalNumber c.start)
      (convertRationalNumber c.assetStart) = true) :
    calculateChapterTime c = none ∧
    outputTimes (pre ++ c :: post) = outputTimes (pre ++ post) := by
  have hnone : calculateChapterTime c = none := by
    rw [calculateChapterTime, calculateChapterTimeWith, if_pos h]
  refine ⟨hnone, ?_⟩
  have hemit : emitLineWith calculateChapterTime c = none := by
    rw [emitLineWith, hnone]
  rw [outputTimes, outputTimesWith, outputTimesWith, List.filterMap_append,
    List.filterMap_append, List.filterMap_cons, hemit]

theorem spec_C4_witness :
    calculateChapterTime
      { name := JSValue.str "X", start := JSValue.str "0/1",
        assetOffset := JSValue.str "0/1", assetStart := JSValue.str "5/1" } = none ∧
    outputTimes ([] ++
      { name := JSValue.str "X", start := JSValue.str "0/1",
        assetOffset := JSValue.str "0/1", assetStart := JSValue.str "5/1" } :: []) =
      outputTimes ([] ++ []) := by
  refine spec_C4 _ [] [] ?_
  show JSNum.lt (convertRationalNumber (JSValue.str "0/1"))
    (convertRationalNumber (JSValue.str "5/1")) = true
  rw [@convertRationalNumber_eval "0/1" ['0'] ['1']
      (by constructor <;> decide) (by constructor <;> decide) (by decide),
    @convertRationalNumber_eval "5/1" ['5'] ['1']
      (by constructor <;> decide) (by constructor <;> decide) (by decide),
    show digitsVal ['0'] = 0 from by decide, show digitsVal ['5'] = 5 from by decide,
    show digitsVal ['1'] = 1 from by decide]
  norm_num [JSNum.div, JSNum.lt]

/-- C5 (the claim is right, but the code drops no such record): a record
whose `start` fails integer parsing converts to `NaN`; the `NaN` survives
every arithmetic step, the three components print as `"NaN"`, the resulting
`"NaN:NaN:NaN"` string is truthy, and the pipeline therefore emits the line
`"NaN:NaN:NaN Intro"` instead of dropping the record. -/
theorem spec_C5 :
    outputTimesP [⟨JSValue.str "Intro", JSValue.str "abc/7500s",
      JSValue.str "0/7500s", JSValue.str "0/7500s"⟩] =
      ["NaN:NaN:NaN Intro"] := by
  have hstart : convertRationalNumberPermissive (JSValue.str "abc/7500s") = JSNum.nan := by
    rw [convertRationalNumberPermissive,
      show splitOnChar '/'
          (stripTrailingS (coerceToString (JSValue.str "abc/7500s")).data) =
        [['a','b','c'], ['7','5','0','0']] from by decide]
    show JSNum.div (parseIntNum ['a','b','c']) (parseIntNum ['7','5','0','0']) = JSNum.nan
    rw [parseIntNum_none (by decide), div_nan_left]
  have hzero : convertRationalNumberPermissive (JSValue.str "0/7500s") = JSNum.rat 0 := by
    rw [@convertRationalNumberPermissive_eval "0/7500s" ['0'] ['7','5','0','0']
        (by constructor <;> decide) (by constructor <;> decide) (by decide),
      show digitsVal ['0'] = 0 from by decide,
      show digitsVal ['7','5','0','0'] = 7500 from by decide]
    norm_num [JSNum.div]
  have hcalc : calculateChapterTimeP
      ⟨JSValue.str "Intro", JSValue.str "abc/7500s",
        JSValue.str "0/7500s", JSValue.str "0/7500s"⟩ =
      some "NaN:NaN:NaN" := by
    rw [calculateChapterTimeP]
    exact calcWith_nan_start _ _ hstart hzero hzero
  have hemit : emitLineWith calculateChapterTimeP
      ⟨JSValue.str "Intro", JSValue.str "abc/7500s",
        JSValue.str "0/7500s", JSValue.str "0/7500s"⟩ =
      some "NaN:NaN:NaN Intro" := by
    rw [emitLineWith, hcalc]
    decide
  rw [outputTimesP, outputTimesWith, List.filterMap_cons, hemit]
  rfl

theorem convert_3661_1 : convertRationalNumber (JSValue.str "3661/1") = JSNum.rat 3661 := by
  rw [@convertRationalNumber_eval "3661/1" ['3','6','6','1'] ['1']
      (by constructor <;> decide) (by constructor <;> decide) (by decide),
    show digitsVal ['3','6','6','1'] = 3661 from by decide,
    show digitsVal ['1'] = 1 from by decide]
  norm_num [JSNum.div]

theorem convert_0_1 : convertRationalNumber (JSValue.str "0/1") = JSNum.rat 0 := by
  rw [@convertRationalNumber_eval "0/1" ['0'] ['1']
      (by constructor <;> decide) (by constructor <;> decide) (by decide),
    show digitsVal ['0'] = 0 from by decide,
    show digitsVal ['1'] = 1 from by decide]
  norm_num [JSNum.div]

/-- C6, counterexample to the claim as stated: a record with an unparseable
`start` field is invalid (the spec's resolver should drop it), yet the
pipeline emits the line `"NaN:NaN:NaN Ch"` for it — one line that is not of
the form `HH:MM:SS<space><name>`, emitted for a list with no valid
marker. -/
theorem spec_C6_cex :
    outputTimes [⟨JSValue.str "Ch", JSValue.str "x/1",
      JSValue.str "0/1", JSValue.str "0/1"⟩] = ["NaN:NaN:NaN Ch"] := by
  have hstart : convertRationalNumber (JSValue.str "x/1") = JSNum.nan := by
    rw [convertRationalNumber,
      show splitOnChar '/'
          (stripTrailingS (coerceToString (JSValue.str "x/1")).data) =
        [['x'], ['1']] from by decide]
    show JSNum.div (parseIntNum ['x']) (parseIntNum ['1']) = JSNum.nan
    rw [parseIntNum_none (by decide), div_nan_left]
  have hcalc : calculateChapterTime
      ⟨JSValue.str "Ch", JSValue.str "x/1", JSValue.str "0/1", JSValue.str "0/1"⟩ =
      some "NaN:NaN:NaN" := by
    rw [calculateChapterTime]
    exact calcWith_nan_start _ _ hstart convert_0_1 convert_0_1
  have hemit : emitLineWith calculateChapterTime
      ⟨JSValue.str "Ch", JSValue.str "x/1", JSValue.str "0/1", JSValue.str "0/1"⟩ =
      some "NaN:NaN:NaN Ch" := by
    rw [emitLineWith, hcalc]
    decide
  rw [outputTimes, outputTimesWith, List.filterMap_cons, hemit]
  rfl

/-- C6, amended: the emitted sequence is always sorted ascending in the
UTF-16 code-unit lexicographic order used by the default JavaScript sort,
and is a permutation of the per-record emissions in collection order; and
every record whose three time fields convert to finite values with
`start ≥ assetStart` contributes exactly the line
`<hours>:<minutes>:<seconds><space><name>` (zero-padded, `HH:MM:SS` when
the floored offset is non-negative).  Records whose fields fail to parse
are not dropped (see the counterexample and C5). -/
theorem spec_C6 (chapters : List Chapter) :
    List.Sorted lineLe (outputTimes chapters) ∧
    (outputTimes chapters).Perm
      (chapters.filterMap (emitLineWith calculateChapterTime)) ∧
    ∀ c ∈ chapters, ∀ q1 q2 q3 : ℚ,
      convertRationalNumber c.start = JSNum.rat q1 →
      convertRationalNumber c.assetStart = JSNum.rat q2 →
      convertRationalNumber c.assetOffset = JSNum.rat q3 →
      q2 ≤ q1 →
      emitLineWith calculateChapterTime c =
        some (hmsCore ⌊q1 - q2 + q3⌋ ++ " " ++ jsDisplayString c.name) := by
  refine ⟨?_, ?_, ?_⟩
  · show List.Sorted lineLe (List.insertionSort lineLe _)
    exact List.sorted_insertionSort lineLe _
  · show (List.insertionSort lineLe _).Perm _
    exact List.perm_insertionSort lineLe _
  · intro c hc q1 q2 q3 h1 h2 h3 hge
    have hcalc : calculateChapterTime c = some (hmsCore ⌊q1 - q2 + q3⌋) := by
      rw [calculateChapterTime]
      exact calcWith_finite _ _ _ _ _ h1 h2 h3 hge
    rw [emitLineWith, hcalc]
    show (if hmsCore ⌊q1 - q2 + q3⌋ = "" then none
      else some (hmsCore ⌊q1 - q2 + q3⌋ ++ " " ++ jsDisplayString c.name)) = _
    rw [if_neg (hmsCore_ne_empty _)]

theorem spec_C6_witness :
    List.Sorted lineLe (outputTimes
      [⟨JSValue.str "B", JSValue.str "3661/1", JSValue.str "0/1", JSValue.str "0/1"⟩]) ∧
    (outputTimes
      [⟨JSValue.str "B", JSValue.str "3661/1", JSValue.str "0/1", JSValue.str "0/1"⟩]).Perm
      ([⟨JSValue.str "B", JSValue.str "3661/1", JSValue.str "0/1", JSValue.str "0/1"⟩].filterMap
        (emitLineWith calculateChapterTime)) ∧
    emitLineWith calculateChapterTime
      ⟨JSValue.str "B", JSValue.str "3661/1", JSValue.str "0/1", JSValue.str "0/1"⟩ =
      some "01:01:01 B" := by
  have h := spec_C6
    [⟨JSValue.str "B", JSValue.str "3661/1", JSValue.str "0/1", JSValue.str "0/1"⟩]
  refine ⟨h.1, h.2.1, ?_⟩
  have hline := h.2.2
    ⟨JSValue.str "B", JSValue.str "3661/1", JSValue.str "0/1", JSValue.str "0/1"⟩
    (by simp) 3661 0 0 convert_3661_1 convert_0_1 convert_0_1 (by norm_num)
  rw [hline, show (⌊(3661 : ℚ) - 0 + 0⌋ : ℤ) = 3661 from by norm_num]
  decide

/-- C7, counterexample to the claim as stated: in the permissive variant
the empty string coerces to one empty part, `parseInt("")` is `NaN`, so the
result is `NaN` rather than `0`; and a three-part string is not rejected
but divides its first two parts. -/
theorem spec_C7_cex :
    convertRationalNumberPermissive (JSValue.str "") = JSNum.nan ∧
    JSNum.nan ≠ JSNum.rat 0 ∧
    convertRationalNumberPermissive (JSValue.str "1/2/3") = JSNum.rat ((1 : ℚ) / 2) ∧
    JSNum.rat ((1 : ℚ) / 2) ≠ JSNum.rat 0 := by
  refine ⟨rfl, by decide, ?_, ?_⟩
  · rw [convertRationalNumberPermissive,
      show splitOnChar '/'
          (stripTrailingS (coerceToString (JSValue.str "1/2/3")).data) =
        [['1'], ['2'], ['3']] from by decide]
    show JSNum.div (parseIntNum ['1']) (parseIntNum ['2']) = _
    rw [parseIntNum_of_digits ⟨by decide, by decide⟩,
      parseIntNum_of_digits ⟨by decide, by decide⟩,
      show digitsVal ['1'] = 1 from by decide, show digitsVal ['2'] = 2 from by decide]
    norm_num [JSNum.div]
  · simp only [ne_eq, JSNum.rat.injEq]
    norm_num

/-- C7, amended: the strict variant returns `0` for the empty string, for
every non-string value and for every split part-count other than two.  The
permissive variant returns `0` for no reachable input: the empty string and
non-string values coerce to a single empty part whose parse is `NaN`, and a
split with two or more parts always divides the first two parts (extra
parts are ignored rather than rejected). -/
theorem spec_C7 :
    (∀ v : JSValue, v.isString = false → convertRationalNumber v = JSNum.rat 0) ∧
    convertRationalNumber (JSValue.str "") = JSNum.rat 0 ∧
    (∀ s : String, (splitOnChar '/' (stripTrailingS s.data)).length ≠ 2 →
      convertRationalNumber (JSValue.str s) = JSNum.rat 0) ∧
    (∀ v : JSValue, v.isString = false →
      convertRationalNumberPermissive v = JSNum.nan) ∧
    (∀ (s : String) (a b : List Char) (rest : List (List Char)),
      splitOnChar '/' (stripTrailingS s.data) = a :: b :: rest →
      convertRationalNumberPermissive (JSValue.str s) =
        JSNum.div (parseIntNum a) (parseIntNum b)) := by
  refine ⟨?_, rfl, ?_, ?_, ?_⟩
  · intro v hv
    cases v with
    | str s => simp [JSValue.isString] at hv
    | undef => rfl
    | null => rfl
    | num n => rfl
    | arr l => rfl
    | obj f => rfl
  · intro s h
    rcases hsplit : splitOnChar '/' (stripTrailingS s.data) with _ | ⟨a, _ | ⟨b, _ | ⟨d, rest⟩⟩⟩
    · rw [convertRationalNumber, show coerceToString (JSValue.str s) = s from rfl, hsplit]
    · rw [convertRationalNumber, show coerceToString (JSValue.str s) = s from rfl, hsplit]
    · rw [hsplit] at h
      simp at h
    · rw [convertRationalNumber, show coerceToString (JSValue.str s) = s from rfl, hsplit]
  · intro v hv
    cases v with
    | str s => simp [JSValue.isString] at hv
    | undef => rfl
    | null => rfl
    | num n => rfl
    | arr l => rfl
    | obj f => rfl
  · intro s a b rest hsplit
    rw [convertRationalNumberPermissive, show coerceToString (JSValue.str s) = s from rfl,
      hsplit]

theorem spec_C7_witness :
    convertRationalNumber JSValue.null = JSNum.rat 0 ∧
    convertRationalNumber (JSValue.str "1/2/3") = JSNum.rat 0 :=
  ⟨spec_C7.1 JSValue.null rfl, spec_C7.2.2.1 "1/2/3" (by decide)⟩

/-- C8, counterexample to the claim as stated: `parseInt` accepts a sign,
so `convertRationalNumber("-61/1")` is `-61`, a negative number of
seconds. -/
theorem spec_C8_cex :
    convertRationalNumber (JSValue.str "-61/1") = JSNum.rat (-61) ∧
    ¬ (JSNum.rat (-61 : ℚ)).nonNegOrNaN := by
  constructor
  · rw [convertRationalNumber,
      show splitOnChar '/'
          (stripTrailingS (coerceToString (JSValue.str "-61/1")).data) =
        [['-','6','1'], ['1']] from by decide]
    show JSNum.div (parseIntNum ['-','6','1']) (parseIntNum ['1']) = _
    rw [parseIntNum, parseIntNum,
      show jsParseInt ['-','6','1'] = some (-61) from by decide,
      show jsParseInt ['1'] = some 1 from by decide]
    norm_num [JSNum.div]
  · show ¬ ((0 : ℚ) ≤ -61)
    norm_num

/-- C8, amended: for every input whose coerced string contains no minus
sign, both variants return `NaN`, `+Infinity` or a non-negative finite
value (never a negative one); inputs with a signed numerator can produce
negative values, as the counterexample shows, and unparseable inputs
produce `NaN` rather than zero. -/
theorem spec_C8 (v : JSValue) (h : '-' ∉ (coerceToString v).data) :
    (convertRationalNumber v).nonNegOrNaN ∧
    (convertRationalNumberPermissive v).nonNegOrNaN := by
  have hmem : ∀ p ∈ splitOnChar '/' (stripTrailingS (coerceToString v).data),
      '-' ∉ p := by
    intro p hp hm
    exact h (mem_stripTrailingS (mem_of_mem_splitOnChar hp hm))
  constructor
  · rw [convertRationalNumber]
    rcases hsplit : splitOnChar '/' (stripTrailingS (coerceToString v).data) with
      _ | ⟨a, _ | ⟨b, _ | ⟨d, rest⟩⟩⟩
    · show (JSNum.rat 0).nonNegOrNaN
      show (0 : ℚ) ≤ 0
      norm_num
    · show (JSNum.rat 0).nonNegOrNaN
      show (0 : ℚ) ≤ 0
      norm_num
    · show (JSNum.div (parseIntNum a) (parseIntNum b)).nonNegOrNaN
      exact div_nonNegOrNaN
        (parseIntNum_no_minus (hmem a (by rw [hsplit]; simp)))
        (parseIntNum_no_minus (hmem b (by rw [hsplit]; simp)))
    · show (JSNum.rat 0).nonNegOrNaN
      show (0 : ℚ) ≤ 0
      norm_num
  · rw [convertRationalNumberPermissive]
    rcases hsplit : splitOnChar '/' (stripTrailingS (coerceToString v).data) with
      _ | ⟨a, _ | ⟨b, rest⟩⟩
    · trivial
    · show (parseIntNum a).nonNegOrNaN
      rcases parseIntNum_no_minus (hmem a (by rw [hsplit]; simp)) with h' | ⟨n, h'⟩
      · rw [h']
        trivial
      · rw [h']
        show (0 : ℚ) ≤ (n : ℚ)
        positivity
    · show (JSNum.div (parseIntNum a) (parseIntNum b)).nonNegOrNaN
      exact div_nonNegOrNaN
        (parseIntNum_no_minus (hmem a (by rw [hsplit]; simp)))
        (parseIntNum_no_minus (hmem b (by rw [hsplit]; simp)))

theorem spec_C8_witness :
    (convertRationalNumber (JSValue.str "3/4")).nonNegOrNaN ∧
    (convertRationalNumberPermissive (JSValue.str "3/4")).nonNegOrNaN :=
  spec_C8 (JSValue.str "3/4") (by decide)

/-- C9: for every record whose fields convert to finite values with
`start ≥ assetStart`, re-parsing the emitted time string as three
colon-separated integers recovers exactly the hours, minutes and seconds
the resolver computed, and they recompose to the floored offset
`⌊start − assetStart + assetOffset⌋` via `h*3600 + m*60 + s`; nothing
below one-second resolution survives the floor. -/
theorem spec_C9 (conv : JSValue → JSNum) (c : Chapter) (q1 q2 q3 : ℚ)
    (h1 : conv c.start = JSNum.rat q1) (h2 : conv c.assetStart = JSNum.rat q2)
    (h3 : conv c.assetOffset = JSNum.rat q3) (hge : q2 ≤ q1) :
    ∃ t : String, calculateChapterTimeWith conv c = some t ∧
      parseHMS t = some (claimHours ⌊q1 - q2 + q3⌋, claimMinutes ⌊q1 - q2 + q3⌋,
        claimSeconds ⌊q1 - q2 + q3⌋) ∧
      claimHours ⌊q1 - q2 + q3⌋ * 3600 + claimMinutes ⌊q1 - q2 + q3⌋ * 60 +
        claimSeconds ⌊q1 - q2 + q3⌋ = ⌊q1 - q2 + q3⌋ := by
  refine ⟨hmsCore ⌊q1 - q2 + q3⌋,
    calcWith_finite conv c q1 q2 q3 h1 h2 h3 hge, ?_, ?_⟩
  · rw [parseHMS_hmsCore, claimHours_eq, claimMinutes_eq, claimSeconds]
  · rw [claimHours_eq, claimMinutes_eq, claimSeconds]
    have ha := Int.tdiv_add_tmod (⌊q1 - q2 + q3⌋) 60
    have hb := Int.tdiv_add_tmod ((⌊q1 - q2 + q3⌋).tdiv 60) 60
    nlinarith [ha, hb]

theorem spec_C9_witness :
    ∃ t : String, calculateChapterTimeWith convertRationalNumber
      ⟨JSValue.str "Ch", JSValue.str "3661/1", JSValue.str "0/1", JSValue.str "0/1"⟩ =
        some t ∧
      parseHMS t = some (claimHours ⌊(3661 : ℚ) - 0 + 0⌋,
        claimMinutes ⌊(3661 : ℚ) - 0 + 0⌋, claimSeconds ⌊(3661 : ℚ) - 0 + 0⌋) ∧
      claimHours ⌊(3661 : ℚ) - 0 + 0⌋ * 3600 + claimMinutes ⌊(3661 : ℚ) - 0 + 0⌋ * 60 +
        claimSeconds ⌊(3661 : ℚ) - 0 + 0⌋ = ⌊(3661 : ℚ) - 0 + 0⌋ :=
  spec_C9 convertRationalNumber
    ⟨JSValue.str "Ch", JSValue.str "3661/1", JSValue.str "0/1", JSValue.str "0/1"⟩
    3661 0 0 convert_3661_1 convert_0_1 convert_0_1 (by norm_num)

/-- C10: neither variant guards the division against a zero denominator:
every `"<positive digits>/0"` input, with or without the trailing `s`,
converts to `+Infinity` rather than `0` or an error, and such a value flows
into `calculateChapterTime` unchecked — the record is not rejected, and the
resolver formats it as the nonsense string `"NaN:NaN:NaN"`. -/
theorem spec_C10 :
    (∀ ds : List Char, IsDigitString ds → 0 < digitsVal ds →
      convertRationalNumber (JSValue.str (String.mk (ds ++ ['/', '0']))) =
        JSNum.posInf ∧
      convertRationalNumber (JSValue.str (String.mk (ds ++ ['/', '0', 's']))) =
        JSNum.posInf ∧
      convertRationalNumberPermissive (JSValue.str (String.mk (ds ++ ['/', '0']))) =
        JSNum.posInf ∧
      convertRationalNumberPermissive
        (JSValue.str (String.mk (ds ++ ['/', '0', 's']))) = JSNum.posInf) ∧
    calculateChapterTime ⟨JSValue.str "Ch", JSValue.str "5/0s",
      JSValue.str "0/1s", JSValue.str "0/1s"⟩ = some "NaN:NaN:NaN" := by
  constructor
  · intro ds hds hpos
    have h0 : IsDigitString ['0'] := ⟨by decide, by decide⟩
    have hvne : ((digitsVal ds : ℕ) : ℚ) ≠ 0 := Nat.cast_ne_zero.2 (by omega)
    have hvpos : (0 : ℚ) < ((digitsVal ds : ℕ) : ℚ) := by exact_mod_cast hpos
    have hz : ((digitsVal ['0'] : ℕ) : ℚ) = 0 := by
      rw [show digitsVal ['0'] = 0 from by decide]
      norm_num
    refine ⟨?_, ?_, ?_, ?_⟩
    · rw [convertRationalNumber_eval hds h0 ((stripTrailingS_slash_form h0).1), hz,
        JSNum.div, if_pos rfl, if_neg hvne, if_pos hvpos]
    · show convertRationalNumber
        (JSValue.str (String.mk (ds ++ '/' :: (['0'] ++ ['s'])))) = JSNum.posInf
      rw [convertRationalNumber_eval hds h0 ((stripTrailingS_slash_form h0).2), hz,
        JSNum.div, if_pos rfl, if_neg hvne, if_pos hvpos]
    · rw [convertRationalNumberPermissive_eval hds h0
        ((stripTrailingS_slash_form h0).1), hz,
        JSNum.div, if_pos rfl, if_neg hvne, if_pos hvpos]
    · show convertRationalNumberPermissive
        (JSValue.str (String.mk (ds ++ '/' :: (['0'] ++ ['s'])))) = JSNum.posInf
      rw [convertRationalNumberPermissive_eval hds h0
        ((stripTrailingS_slash_form h0).2), hz,
        JSNum.div, if_pos rfl, if_neg hvne, if_pos hvpos]
  · have hstart : convertRationalNumber (JSValue.str "5/0s") = JSNum.posInf := by
      rw [@convertRationalNumber_eval "5/0s" ['5'] ['0']
          (by constructor <;> decide) (by constructor <;> decide) (by decide),
        show digitsVal ['5'] = 5 from by decide,
        show digitsVal ['0'] = 0 from by decide]
      norm_num [JSNum.div]
    have hzero : convertRationalNumber (JSValue.str "0/1s") = JSNum.rat 0 := by
      rw [@convertRationalNumber_eval "0/1s" ['0'] ['1']
          (by constructor <;> decide) (by constructor <;> decide) (by decide),
        show digitsVal ['0'] = 0 from by decide,
        show digitsVal ['1'] = 1 from by decide]
      norm_num [JSNum.div]
    rw [calculateChapterTime]
    exact calcWith_inf_start _ _ hstart hzero hzero

theorem spec_C10_witness :
    convertRationalNumber (JSValue.str (String.mk (['5'] ++ ['/', '0']))) =
      JSNum.posInf ∧
    convertRationalNumber (JSValue.str (String.mk (['5'] ++ ['/', '0', 's']))) =
      JSNum.posInf ∧
    convertRationalNumberPermissive (JSValue.str (String.mk (['5'] ++ ['/', '0']))) =
      JSNum.posInf ∧
    convertRationalNumberPermissive
      (JSValue.str (String.mk (['5'] ++ ['/', '0', 's']))) = JSNum.posInf :=
  spec_C10.1 ['5'] ⟨by decide, by decide⟩ (by decide)
